import Mathlib

/-!
Shallow embedding of `src/runtime/src/accounts_index_storage.rs`
(`AccountsIndexStorage<T>`): construction (`new`), the background worker
loop (`background`), and teardown (`Drop::drop`).

The concurrency-relevant behaviour of the worker loop and of teardown is
modelled as event traces: each observable action of the Rust code (the
timed wait, the read of the `exit` flag, the active-thread counter
updates, the bucket selection, the shard flushes, the statistics reports,
the joins) becomes one event.  The trace of a worker is driven by the
sequence of values its `exit.load(...)` reads return (one per loop cycle)
and by the storage collaborator's `next_bucket_to_flush` policy, modelled
as a stream of bin indices indexed by call number.
-/

/-- Modelled from the spec: the index configuration consumed by `new`.
The struct itself lives outside `src/`; the only field this layer reads is
`flush_threads` (accessed in `new` via
`config.as_ref().and_then(|config| config.flush_threads)`), an optional
worker count. -/
structure AccountsIndexConfig where
  flush_threads : Option Nat

/-- Modelled from the spec: the external storage collaborator
(`BucketMapHolder`).  Its internals are out of scope; this layer observes
only whether persistent storage is configured (`disk.isSome`, read as
`storage.disk.is_some()`), and the `next_bucket_to_flush` selection
policy, modelled as the stream `sel` of returned bin indices indexed by
call number. -/
structure BucketMapHolder where
  bins : Nat
  disk : Option Unit
  sel : Nat → Nat

/-- Modelled from the spec: the external storage collaborator's
constructor `BucketMapHolder::new(bins, config)`.  Only the bin count is
observable at this layer; no theorem below depends on the `disk` and
`sel` values chosen here (flush behaviour is always quantified over an
arbitrary `BucketMapHolder`). -/
def BucketMapHolder.new (bins : Nat) (_config : Option AccountsIndexConfig) :
    BucketMapHolder :=
  { bins := bins, disk := none, sel := fun _ => 0 }

/-- Modelled from the spec: one in-memory shard (`InMemAccountsIndex`),
recording what `new` binds it to: the shared storage handle and its bin
index (`InMemAccountsIndex::new(&storage, bin)`). -/
structure InMemAccountsIndex where
  storage : BucketMapHolder
  bin : Nat

/-- `InMemAccountsIndex::new(&storage, bin)`: a shard bound to the shared
storage handle and to its bin index. -/
def InMemAccountsIndex.new (storage : BucketMapHolder) (bin : Nat) :
    InMemAccountsIndex :=
  { storage := storage, bin := bin }

/-- The arguments handed to each spawned background worker: clones of the
storage handle, of the `exit` flag, and of the full shard array
(`Arc::clone(&storage)`, `Arc::clone(&exit)`, `in_mem.clone()`). -/
structure SpawnedWorker where
  storage : BucketMapHolder
  exit : Bool
  in_mem : List InMemAccountsIndex

/-- The orchestrator struct `AccountsIndexStorage`: the shutdown flag, the
optional vector of worker handles (each recorded with the arguments its
thread received), the shared storage handle and the shard array. -/
structure AccountsIndexStorage where
  exit : Bool
  handles : Option (List SpawnedWorker)
  storage : BucketMapHolder
  in_mem : List InMemAccountsIndex

/-- `const DEFAULT_THREADS: usize = 1;` -/
def DEFAULT_THREADS : Nat := 1

/-- `AccountsIndexStorage::new(bins, config)`: builds the storage, the
`bins` shards (shard `bin` is `InMemAccountsIndex::new(&storage, bin)`),
computes the worker count
`config.as_ref().and_then(|c| c.flush_threads).unwrap_or(DEFAULT_THREADS)`,
and spawns that many workers, each receiving clones of the storage
handle, the exit flag and the full shard array. -/
def AccountsIndexStorage.new (bins : Nat) (config : Option AccountsIndexConfig) :
    AccountsIndexStorage :=
  let storage := BucketMapHolder.new bins config
  let in_mem := (List.range bins).map (fun bin => InMemAccountsIndex.new storage bin)
  let threads := (config.bind (fun config => config.flush_threads)).getD DEFAULT_THREADS
  let exit := false
  let handles := some ((List.range threads).map
    (fun _ => ({ storage := storage, exit := exit, in_mem := in_mem } : SpawnedWorker)))
  { exit := exit, handles := handles, storage := storage, in_mem := in_mem }

/-- Observable events of one background worker's execution of
`AccountsIndexStorage::background`. -/
inductive Event where
  /-- `storage.wait_dirty_or_aged.wait_timeout(Duration::from_millis(ms))` -/
  | waitTimeout (ms : Nat)
  /-- `exit.load(Ordering::Relaxed)` returned `b` -/
  | checkExit (b : Bool)
  /-- the `break` leaving the loop -/
  | breakLoop
  /-- `storage.stats.active_threads.fetch_add(1, ...)` -/
  | incActive
  /-- `storage.next_bucket_to_flush()` returned `i` -/
  | nextBucket (i : Nat)
  /-- `in_mem[i].flush()` -/
  | flushShard (i : Nat)
  /-- `storage.stats.report_stats(&storage)` -/
  | reportStats
  /-- `storage.stats.active_threads.fetch_sub(1, ...)` -/
  | decActive
deriving DecidableEq, Repr

/-- One iteration of the `for _ in 0..bins` scan body: when `flush` holds,
ask the policy for the next bucket (`c` is the call number) and flush that
shard, then report statistics; otherwise only report statistics. -/
def scanIter (flush : Bool) (sel : Nat → Nat) (c : Nat) : List Event :=
  if flush then
    [Event.nextBucket (sel c), Event.flushShard (sel c), Event.reportStats]
  else
    [Event.reportStats]

/-- The whole `for _ in 0..bins` scan pass, unrolled: `n` remaining
iterations, the next `next_bucket_to_flush` call having call number `c`. -/
def scanPass (flush : Bool) (sel : Nat → Nat) : Nat → Nat → List Event
  | _, 0 => []
  | c, n + 1 => scanIter flush sel c ++ scanPass flush sel (c + 1) n

/-- One cycle of the `loop`: the timed wait, the exit-flag read (value
`b`), then either the `break` (if `b`) or a full scan pass bracketed by
the active-thread counter increment and decrement. -/
def cycleEvents (flush : Bool) (sel : Nat → Nat) (c bins : Nat) (b : Bool) :
    List Event :=
  [Event.waitTimeout 10000, Event.checkExit b] ++
    (if b then [Event.breakLoop]
     else [Event.incActive] ++ scanPass flush sel c bins ++ [Event.decActive])

/-- The event trace of `AccountsIndexStorage::background(storage, exit,
in_mem)`, driven by `reads`, the successive values returned by
`exit.load`: one cycle per element, stopping after the first `true` (the
worker breaks out of the loop).  As in the source, `bins` is
`in_mem.len()` and `flush` is `storage.disk.is_some()`; `c` is the call
number of the next `next_bucket_to_flush` call. -/
def backgroundTrace (storage : BucketMapHolder) (in_mem : List InMemAccountsIndex) :
    List Bool → Nat → List Event
  | [], _ => []
  | b :: rest, c =>
    cycleEvents storage.disk.isSome storage.sel c in_mem.length b ++
      (if b then [] else backgroundTrace storage in_mem rest (c + in_mem.length))

/-- The trace split into its cycles (`backgroundTrace` is its `join`). -/
def cyclesList (storage : BucketMapHolder) (in_mem : List InMemAccountsIndex) :
    List Bool → Nat → List (List Event)
  | [], _ => []
  | b :: rest, c =>
    cycleEvents storage.disk.isSome storage.sel c in_mem.length b ::
      (if b then [] else cyclesList storage in_mem rest (c + in_mem.length))

/-- The number of full scan passes the loop performs when driven by
`reads`: one per `false` read before the first `true`. -/
def scanPassesDone : List Bool → Nat
  | [] => 0
  | b :: rest => if b then 0 else scanPassesDone rest + 1

/-- One scan iteration with the array indexing of `in_mem[index]` made
explicit: an index outside the shard array is the Rust panic
(out-of-bounds indexing), modelled as `Except.error`. -/
def scanIterChecked (storage : BucketMapHolder) (in_mem : List InMemAccountsIndex)
    (c : Nat) : Except String (List Event) :=
  if storage.disk.isSome then
    let index := storage.sel c
    match in_mem.get? index with
    | some _ => Except.ok [Event.nextBucket index, Event.flushShard index, Event.reportStats]
    | none => Except.error "index out of bounds"
  else
    Except.ok [Event.reportStats]

/-- The scan pass with checked indexing: a panic aborts the pass. -/
def scanPassChecked (storage : BucketMapHolder) (in_mem : List InMemAccountsIndex) :
    Nat → Nat → Except String (List Event)
  | _, 0 => Except.ok []
  | c, n + 1 =>
    match scanIterChecked storage in_mem c with
    | Except.error m => Except.error m
    | Except.ok first =>
      match scanPassChecked storage in_mem (c + 1) n with
      | Except.error m => Except.error m
      | Except.ok rest => Except.ok (first ++ rest)

/-- The worker trace with checked indexing: `Except.error` is a worker
panic from out-of-bounds indexing of the shard array. -/
def backgroundTraceChecked (storage : BucketMapHolder)
    (in_mem : List InMemAccountsIndex) :
    List Bool → Nat → Except String (List Event)
  | [], _ => Except.ok []
  | b :: rest, c =>
    if b then
      Except.ok [Event.waitTimeout 10000, Event.checkExit true, Event.breakLoop]
    else
      match scanPassChecked storage in_mem c in_mem.length with
      | Except.error m => Except.error m
      | Except.ok pass =>
        match backgroundTraceChecked storage in_mem rest (c + in_mem.length) with
        | Except.error m => Except.error m
        | Except.ok tail =>
          Except.ok ([Event.waitTimeout 10000, Event.checkExit false,
            Event.incActive] ++ pass ++ [Event.decActive] ++ tail)

/-- Observable events of `Drop for AccountsIndexStorage`. -/
inductive DropEvent where
  /-- `self.exit.store(true, Ordering::Relaxed)` -/
  | storeExit
  /-- `self.storage.wait_dirty_or_aged.notify_all()` -/
  | notifyAll
  /-- `handle.join()` of the `k`-th worker handle (then `.unwrap()`) -/
  | join (k : Nat)
  /-- the struct's fields (shared storage handle, shard array) are released -/
  | releaseShared
deriving DecidableEq, Repr

/-- The outcome `handle.join()` reports for one worker thread. -/
inductive JoinResult where
  | ok
  | panicked (msg : String)
deriving DecidableEq, Repr

/-- The `handles.into_iter().for_each(|handle| handle.join().unwrap())`
loop: joins handles in order (`k` is the position of the next handle);
the first `unwrap` of a panicked join aborts the iteration with that
panic. -/
def joinLoop : List JoinResult → Nat → List DropEvent × Except String Unit
  | [], _ => ([], Except.ok ())
  | r :: rest, k =>
    match r with
    | JoinResult.ok =>
      let p := joinLoop rest (k + 1)
      (DropEvent.join k :: p.1, p.2)
    | JoinResult.panicked m => ([DropEvent.join k], Except.error m)

/-- `Drop::drop`: store `true` into the exit flag, broadcast the wake
signal, join every handle (if the vector is present), then release the
fields; `results` are the join outcomes of the worker threads, and the
second component is the propagated panic, if any (Rust releases the
remaining fields during unwinding as well, so `releaseShared` is emitted
on both paths). -/
def dropRun (handles : Option (List JoinResult)) :
    List DropEvent × Except String Unit :=
  match handles with
  | none =>
    ([DropEvent.storeExit, DropEvent.notifyAll, DropEvent.releaseShared], Except.ok ())
  | some results =>
    let p := joinLoop results 0
    ([DropEvent.storeExit, DropEvent.notifyAll] ++ p.1 ++ [DropEvent.releaseShared], p.2)

/-- Discriminator for `checkExit` events. -/
def Event.isCheckExit : Event → Bool
  | Event.checkExit _ => true
  | _ => false

/-- Discriminator for `flushShard` events. -/
def Event.isFlushShard : Event → Bool
  | Event.flushShard _ => true
  | _ => false

/-- Discriminator for `nextBucket` events. -/
def Event.isNextBucket : Event → Bool
  | Event.nextBucket _ => true
  | _ => false

/-- Discriminator for `reportStats` events. -/
def Event.isReportStats : Event → Bool
  | Event.reportStats => true
  | _ => false

/-- Contribution of an event to the shared active-thread counter. -/
def activeDelta : Event → Int
  | Event.incActive => 1
  | Event.decActive => -1
  | _ => 0

/-- Value of the active-thread counter contributed by one worker after it
has executed the events `tr` (the counter starts at 0). -/
def counterAfter (tr : List Event) : Int :=
  (tr.map activeDelta).sum

/-- A worker is mid-scan when it has incremented the active-thread
counter more often than it has decremented it. -/
def midScan (tr : List Event) : Prop :=
  tr.countP (fun e => e == Event.incActive) ≠
    tr.countP (fun e => e == Event.decActive)

/-! ## Helper lemmas -/

lemma join_injective : Function.Injective DropEvent.join := by
  intro a b h
  injection h

lemma joinLoop_all_ok (rs : List JoinResult) (k : Nat)
    (h : ∀ r ∈ rs, r = JoinResult.ok) :
    joinLoop rs k =
      ((List.range' k rs.length).map DropEvent.join, Except.ok ()) := by
  induction rs generalizing k with
  | nil => rfl
  | cons r rest ih =>
    have hr : r = JoinResult.ok := h r (by simp)
    subst hr
    have hrest : ∀ r ∈ rest, r = JoinResult.ok := fun r hr => h r (by simp [hr])
    have hstep : joinLoop (JoinResult.ok :: rest) k =
        (DropEvent.join k :: (joinLoop rest (k + 1)).1, (joinLoop rest (k + 1)).2) := rfl
    rw [hstep, ih (k + 1) hrest]
    simp [List.range'_succ]

lemma joinLoop_panic (rs : List JoinResult) (k : Nat)
    (h : ∃ r ∈ rs, r ≠ JoinResult.ok) :
    ∃ m, (joinLoop rs k).2 = Except.error m ∧ JoinResult.panicked m ∈ rs := by
  induction rs generalizing k with
  | nil => simp at h
  | cons r rest ih =>
    cases r with
    | ok =>
      obtain ⟨r', hmem, hne⟩ := h
      rcases List.mem_cons.mp hmem with h1 | h1
      · exact absurd h1.symm (Ne.symm hne)
      · obtain ⟨m, hm, hmmem⟩ := ih (k + 1) ⟨r', h1, hne⟩
        exact ⟨m, by simpa [joinLoop] using hm, by simp [hmmem]⟩
    | panicked m => exact ⟨m, rfl, by simp⟩

/-! ## Claim theorems: teardown -/

/-- C1: when an `AccountsIndexStorage` is dropped and every worker joins
normally, teardown emits exactly: set the shutdown flag, broadcast the
wake signal, join the workers in order (each handle exactly once), and
only then release the shared storage handle and shard array (the release
is the last event). -/
theorem drop_teardown_sequence (rs : List JoinResult)
    (h : ∀ r ∈ rs, r = JoinResult.ok) :
    (dropRun (some rs)).1 =
      [DropEvent.storeExit, DropEvent.notifyAll] ++
        (List.range rs.length).map DropEvent.join ++ [DropEvent.releaseShared] ∧
    (∀ k, k < rs.length → ((dropRun (some rs)).1.count (DropEvent.join k) = 1)) ∧
    (dropRun (some rs)).1.getLast? = some DropEvent.releaseShared := by
  have hrun : (dropRun (some rs)).1 =
      [DropEvent.storeExit, DropEvent.notifyAll] ++
        (List.range rs.length).map DropEvent.join ++ [DropEvent.releaseShared] := by
    simp only [dropRun, joinLoop_all_ok rs 0 h, List.range_eq_range' rs.length]
  refine ⟨hrun, fun k hk => ?_, by rw [hrun]; exact List.getLast?_concat _⟩
  rw [hrun]
  have h1 : ((List.range rs.length).map DropEvent.join).count (DropEvent.join k) = 1 := by
    rw [List.count_map_of_injective _ _ join_injective]
    exact List.count_eq_one_of_mem (List.nodup_range _) (List.mem_range.mpr hk)
  simp [List.count_append, h1, List.count_cons, List.count_nil]

/-- Witness for C1 at a concrete two-worker teardown. -/
theorem drop_teardown_sequence_witness :
    (dropRun (some [JoinResult.ok, JoinResult.ok])).1 =
      [DropEvent.storeExit, DropEvent.notifyAll] ++
        (List.range 2).map DropEvent.join ++ [DropEvent.releaseShared] :=
  (drop_teardown_sequence [JoinResult.ok, JoinResult.ok] (by decide)).1

/-- C8: if any worker thread terminated abnormally, the join loop in
`drop` propagates the panic (`join().unwrap()`): teardown's outcome is
that error, never a silent success. -/
theorem drop_join_panic_propagates (rs : List JoinResult)
    (h : ∃ r ∈ rs, r ≠ JoinResult.ok) :
    ∃ m, (dropRun (some rs)).2 = Except.error m ∧ JoinResult.panicked m ∈ rs := by
  obtain ⟨m, hm, hmem⟩ := joinLoop_panic rs 0 h
  exact ⟨m, by simpa [dropRun] using hm, hmem⟩

/-- Witness for C8: one worker panicked with message "boom". -/
theorem drop_join_panic_propagates_witness :
    ∃ m, (dropRun (some [JoinResult.ok, JoinResult.panicked "boom"])).2 =
        Except.error m ∧
      JoinResult.panicked m ∈ [JoinResult.ok, JoinResult.panicked "boom"] :=
  drop_join_panic_propagates _ ⟨JoinResult.panicked "boom", by simp, by simp⟩

/-! ## Claim theorems: construction -/

/-- C6: `new bins config` creates exactly `bins` shards, the shard at
position `i` being bound to bin index `i` and to the same shared storage
handle the orchestrator retains. -/
theorem new_creates_bins_shards (bins : Nat) (config : Option AccountsIndexConfig) :
    (AccountsIndexStorage.new bins config).in_mem.length = bins ∧
    ∀ i, i < bins →
      (AccountsIndexStorage.new bins config).in_mem.get? i =
        some { storage := (AccountsIndexStorage.new bins config).storage, bin := i } := by
  constructor
  · simp [AccountsIndexStorage.new]
  · intro i hi
    simp [AccountsIndexStorage.new, InMemAccountsIndex.new, List.get?_map,
      List.getElem?_range hi]

/-- Witness for C6: with 3 bins, shard 1 is bound to bin 1 and the shared
storage. -/
theorem new_creates_bins_shards_witness :
    (AccountsIndexStorage.new 3 none).in_mem.get? 1 =
      some { storage := (AccountsIndexStorage.new 3 none).storage, bin := 1 } :=
  (new_creates_bins_shards 3 none).2 1 (by decide)

/-- C7: construction spawns exactly `flush_threads` workers when the
configuration specifies it, and exactly 1 when the configuration is
absent or silent; every spawned worker receives the storage handle, the
shutdown flag, and the full shard array of the orchestrator. -/
theorem new_spawns_flush_threads (bins : Nat) (config : Option AccountsIndexConfig) :
    ∃ hs, (AccountsIndexStorage.new bins config).handles = some hs ∧
      hs.length = (config.bind (fun c => c.flush_threads)).getD 1 ∧
      (config = none → hs.length = 1) ∧
      (∀ c, config = some c → c.flush_threads = none → hs.length = 1) ∧
      (∀ c n, config = some c → c.flush_threads = some n → hs.length = n) ∧
      (∀ w ∈ hs,
        w.storage = (AccountsIndexStorage.new bins config).storage ∧
        w.exit = (AccountsIndexStorage.new bins config).exit ∧
        w.in_mem = (AccountsIndexStorage.new bins config).in_mem) := by
  refine ⟨_, rfl, ?_, ?_, ?_, ?_, ?_⟩
  · simp [AccountsIndexStorage.new, DEFAULT_THREADS]
  · intro hc; subst hc; simp [AccountsIndexStorage.new, DEFAULT_THREADS]
  · intro c hc hft; subst hc; simp [AccountsIndexStorage.new, DEFAULT_THREADS, hft]
  · intro c n hc hft; subst hc; simp [AccountsIndexStorage.new, hft]
  · intro w hw
    simp only [AccountsIndexStorage.new, List.mem_map] at hw
    obtain ⟨_, _, hw⟩ := hw
    subst hw
    exact ⟨rfl, rfl, rfl⟩

/-- Witness for C7: `flush_threads = 3` spawns exactly 3 workers. -/
theorem new_spawns_flush_threads_witness :
    ∃ hs, (AccountsIndexStorage.new 2 (some { flush_threads := some 3 })).handles =
        some hs ∧ hs.length = 3 := by
  obtain ⟨hs, h1, -, -, -, h5, -⟩ :=
    new_spawns_flush_threads 2 (some { flush_threads := some 3 })
  exact ⟨hs, h1, h5 _ 3 rfl rfl⟩

/-! ## Helper lemmas on the worker loop -/

lemma scanIter_true (s : Nat → Nat) (c : Nat) :
    scanIter true s c =
      [Event.nextBucket (s c), Event.flushShard (s c), Event.reportStats] := rfl

lemma scanIter_false (s : Nat → Nat) (c : Nat) :
    scanIter false s c = [Event.reportStats] := rfl

lemma cycleEvents_true (f : Bool) (s : Nat → Nat) (c bins : Nat) :
    cycleEvents f s c bins true =
      [Event.waitTimeout 10000, Event.checkExit true, Event.breakLoop] := rfl

lemma cycleEvents_false (f : Bool) (s : Nat → Nat) (c bins : Nat) :
    cycleEvents f s c bins false =
      [Event.waitTimeout 10000, Event.checkExit false, Event.incActive] ++
        scanPass f s c bins ++ [Event.decActive] := by
  simp [cycleEvents]

lemma backgroundTrace_cons_true (st : BucketMapHolder)
    (im : List InMemAccountsIndex) (rest : List Bool) (c : Nat) :
    backgroundTrace st im (true :: rest) c =
      cycleEvents st.disk.isSome st.sel c im.length true := by
  simp [backgroundTrace]

lemma backgroundTrace_cons_false (st : BucketMapHolder)
    (im : List InMemAccountsIndex) (rest : List Bool) (c : Nat) :
    backgroundTrace st im (false :: rest) c =
      cycleEvents st.disk.isSome st.sel c im.length false ++
        backgroundTrace st im rest (c + im.length) := by
  simp [backgroundTrace]

lemma cyclesList_cons_true (st : BucketMapHolder)
    (im : List InMemAccountsIndex) (rest : List Bool) (c : Nat) :
    cyclesList st im (true :: rest) c =
      [cycleEvents st.disk.isSome st.sel c im.length true] := by
  simp [cyclesList]

lemma cyclesList_cons_false (st : BucketMapHolder)
    (im : List InMemAccountsIndex) (rest : List Bool) (c : Nat) :
    cyclesList st im (false :: rest) c =
      cycleEvents st.disk.isSome st.sel c im.length false ::
        cyclesList st im rest (c + im.length) := by
  simp [cyclesList]

lemma backgroundTrace_eq_join (st : BucketMapHolder) (im : List InMemAccountsIndex)
    (reads : List Bool) :
    ∀ c, backgroundTrace st im reads c = (cyclesList st im reads c).join := by
  induction reads with
  | nil => intro c; rfl
  | cons b rest ih =>
    intro c
    cases b with
    | true => simp [backgroundTrace_cons_true, cyclesList_cons_true]
    | false => simp [backgroundTrace_cons_false, cyclesList_cons_false, ih]

lemma cyclesList_mem (st : BucketMapHolder) (im : List InMemAccountsIndex)
    (reads : List Bool) :
    ∀ c cyc, cyc ∈ cyclesList st im reads c →
      ∃ c' b, cyc = cycleEvents st.disk.isSome st.sel c' im.length b := by
  induction reads with
  | nil => intro c cyc hc; simp [cyclesList] at hc
  | cons b rest ih =>
    intro c cyc hc
    cases b with
    | true =>
      rw [cyclesList_cons_true] at hc
      simp only [List.mem_singleton] at hc
      exact ⟨c, true, hc⟩
    | false =>
      rw [cyclesList_cons_false] at hc
      rcases List.mem_cons.mp hc with hc | hc
      · exact ⟨c, false, hc⟩
      · exact ih _ cyc hc

lemma scanIter_countP_report (f : Bool) (s : Nat → Nat) (c : Nat) :
    (scanIter f s c).countP Event.isReportStats = 1 := by
  cases f <;> rfl

lemma scanIter_countP_flush (f : Bool) (s : Nat → Nat) (c : Nat) :
    (scanIter f s c).countP Event.isFlushShard = if f then 1 else 0 := by
  cases f <;> rfl

lemma scanIter_countP_next (f : Bool) (s : Nat → Nat) (c : Nat) :
    (scanIter f s c).countP Event.isNextBucket = if f then 1 else 0 := by
  cases f <;> rfl

lemma scanIter_countP_checkExit (f : Bool) (s : Nat → Nat) (c : Nat) :
    (scanIter f s c).countP Event.isCheckExit = 0 := by
  cases f <;> rfl

lemma scanPass_countP_report (f : Bool) (s : Nat → Nat) :
    ∀ n c, (scanPass f s c n).countP Event.isReportStats = n := by
  intro n
  induction n with
  | zero => intro c; rfl
  | succ n ih =>
    intro c
    simp [scanPass, List.countP_append, scanIter_countP_report, ih, Nat.add_comm]

lemma scanPass_countP_flush (f : Bool) (s : Nat → Nat) :
    ∀ n c, (scanPass f s c n).countP Event.isFlushShard = if f then n else 0 := by
  intro n
  induction n with
  | zero => intro c; cases f <;> rfl
  | succ n ih =>
    intro c
    cases f <;>
      simp [scanPass, List.countP_append, scanIter_countP_flush, ih, Nat.add_comm]

lemma scanPass_countP_next (f : Bool) (s : Nat → Nat) :
    ∀ n c, (scanPass f s c n).countP Event.isNextBucket = if f then n else 0 := by
  intro n
  induction n with
  | zero => intro c; cases f <;> rfl
  | succ n ih =>
    intro c
    cases f <;>
      simp [scanPass, List.countP_append, scanIter_countP_next, ih, Nat.add_comm]

lemma scanPass_countP_checkExit (f : Bool) (s : Nat → Nat) :
    ∀ n c, (scanPass f s c n).countP Event.isCheckExit = 0 := by
  intro n
  induction n with
  | zero => intro c; rfl
  | succ n ih =>
    intro c
    simp [scanPass, List.countP_append, scanIter_countP_checkExit, ih]

lemma cycleEvents_countP_checkExit (f : Bool) (s : Nat → Nat) (c bins : Nat)
    (b : Bool) : (cycleEvents f s c bins b).countP Event.isCheckExit = 1 := by
  cases b with
  | true => rfl
  | false =>
    rw [cycleEvents_false]
    simp [List.countP_append, scanPass_countP_checkExit, List.countP_cons,
      Event.isCheckExit]

lemma cycleEvents_countP_report (f : Bool) (s : Nat → Nat) (c bins : Nat)
    (b : Bool) :
    (cycleEvents f s c bins b).countP Event.isReportStats =
      if b then 0 else bins := by
  cases b with
  | true => rfl
  | false =>
    rw [cycleEvents_false]
    simp [List.countP_append, scanPass_countP_report, List.countP_cons,
      Event.isReportStats]

lemma cycleEvents_countP_flush (f : Bool) (s : Nat → Nat) (c bins : Nat)
    (b : Bool) :
    (cycleEvents f s c bins b).countP Event.isFlushShard =
      if b then 0 else (if f then bins else 0) := by
  cases b with
  | true => rfl
  | false =>
    rw [cycleEvents_false]
    cases f <;>
      simp [List.countP_append, scanPass_countP_flush, List.countP_cons,
        Event.isFlushShard]

lemma cycleEvents_countP_next (f : Bool) (s : Nat → Nat) (c bins : Nat)
    (b : Bool) :
    (cycleEvents f s c bins b).countP Event.isNextBucket =
      if b then 0 else (if f then bins else 0) := by
  cases b with
  | true => rfl
  | false =>
    rw [cycleEvents_false]
    cases f <;>
      simp [List.countP_append, scanPass_countP_next, List.countP_cons,
        Event.isNextBucket]

lemma backgroundTrace_countP (st : BucketMapHolder)
    (im : List InMemAccountsIndex) (p : Event → Bool) (A : Nat)
    (hfalse : ∀ c, (cycleEvents st.disk.isSome st.sel c im.length false).countP p = A)
    (htrue : ∀ c, (cycleEvents st.disk.isSome st.sel c im.length true).countP p = 0)
    (reads : List Bool) :
    ∀ c, (backgroundTrace st im reads c).countP p = A * scanPassesDone reads := by
  induction reads with
  | nil => intro c; simp [backgroundTrace, scanPassesDone]
  | cons b rest ih =>
    intro c
    cases b with
    | true => simp [backgroundTrace_cons_true, htrue, scanPassesDone]
    | false =>
      rw [backgroundTrace_cons_false, List.countP_append, hfalse, ih]
      simp [scanPassesDone, Nat.mul_add, Nat.add_comm]

lemma scanPass_flush_mem (f : Bool) (s : Nat → Nat) :
    ∀ n c i, Event.flushShard i ∈ scanPass f s c n →
      (∃ m, i = s m) ∧ Event.nextBucket i ∈ scanPass f s c n := by
  intro n
  induction n with
  | zero => intro c i h; simp [scanPass] at h
  | succ n ih =>
    intro c i h
    rw [scanPass, List.mem_append] at h
    rcases h with h | h
    · cases f with
      | false => rw [scanIter_false] at h; simp at h
      | true =>
        rw [scanIter_true] at h
        simp only [List.mem_cons, List.not_mem_nil, or_false] at h
        rcases h with h | h | h
        · exact absurd h (by simp)
        · have hi : i = s c := by injection h
          subst hi
          refine ⟨⟨c, rfl⟩, ?_⟩
          rw [scanPass, List.mem_append]
          left
          rw [scanIter_true]
          simp
        · exact absurd h (by simp)
    · obtain ⟨hm, hnb⟩ := ih (c + 1) i h
      refine ⟨hm, ?_⟩
      rw [scanPass, List.mem_append]
      right
      exact hnb

lemma cycleEvents_flush_mem (f : Bool) (s : Nat → Nat) (c bins : Nat) (b : Bool)
    (i : Nat) (h : Event.flushShard i ∈ cycleEvents f s c bins b) :
    (∃ m, i = s m) ∧ Event.nextBucket i ∈ cycleEvents f s c bins b := by
  cases b with
  | true => rw [cycleEvents_true] at h; simp at h
  | false =>
    rw [cycleEvents_false, List.mem_append, List.mem_append] at h
    rcases h with (h | h) | h
    · simp at h
    · obtain ⟨hm, hnb⟩ := scanPass_flush_mem f s bins c i h
      refine ⟨hm, ?_⟩
      rw [cycleEvents_false, List.mem_append, List.mem_append]
      left
      right
      exact hnb
    · simp at h

lemma backgroundTrace_flush_mem (st : BucketMapHolder)
    (im : List InMemAccountsIndex) (reads : List Bool) :
    ∀ c i, Event.flushShard i ∈ backgroundTrace st im reads c →
      (∃ m, i = st.sel m) ∧
        Event.nextBucket i ∈ backgroundTrace st im reads c := by
  induction reads with
  | nil => intro c i h; simp [backgroundTrace] at h
  | cons b rest ih =>
    intro c i h
    cases b with
    | true =>
      rw [backgroundTrace_cons_true] at h
      obtain ⟨hm, hnb⟩ := cycleEvents_flush_mem _ _ _ _ _ _ h
      exact ⟨hm, by rw [backgroundTrace_cons_true]; exact hnb⟩
    | false =>
      rw [backgroundTrace_cons_false, List.mem_append] at h
      rcases h with h | h
      · obtain ⟨hm, hnb⟩ := cycleEvents_flush_mem _ _ _ _ _ _ h
        refine ⟨hm, ?_⟩
        rw [backgroundTrace_cons_false, List.mem_append]
        left
        exact hnb
      · obtain ⟨hm, hnb⟩ := ih _ i h
        refine ⟨hm, ?_⟩
        rw [backgroundTrace_cons_false, List.mem_append]
        right
        exact hnb

/-! ## Claim theorems: the worker loop -/

/-- C2: the worker trace decomposes into cycles; in every cycle the
shutdown flag is read exactly once, at position 1 (immediately after the
timed wait at position 0) and before any scan work; a `false` read is
followed by the complete scan pass over all bins and the counter
decrement (nothing else), so a scan in progress always finishes before
the next flag check, which belongs to the next cycle. -/
theorem exit_flag_read_once_per_cycle (st : BucketMapHolder)
    (im : List InMemAccountsIndex) (reads : List Bool) (c : Nat) :
    backgroundTrace st im reads c = (cyclesList st im reads c).join ∧
    ∀ cyc ∈ cyclesList st im reads c,
      cyc.countP Event.isCheckExit = 1 ∧
      cyc.get? 0 = some (Event.waitTimeout 10000) ∧
      ∃ b c', cyc.get? 1 = some (Event.checkExit b) ∧
        (b = true →
          cyc = [Event.waitTimeout 10000, Event.checkExit true, Event.breakLoop]) ∧
        (b = false →
          cyc = [Event.waitTimeout 10000, Event.checkExit false, Event.incActive] ++
            scanPass st.disk.isSome st.sel c' im.length ++ [Event.decActive]) := by
  refine ⟨backgroundTrace_eq_join st im reads c, fun cyc hcyc => ?_⟩
  obtain ⟨c', b, rfl⟩ := cyclesList_mem st im reads c cyc hcyc
  refine ⟨cycleEvents_countP_checkExit _ _ _ _ _, ?_, b, c', ?_, ?_, ?_⟩
  · cases b <;> rfl
  · cases b <;> rfl
  · intro hb; subst hb; rfl
  · intro hb; subst hb; exact cycleEvents_false _ _ _ _

/-- Witness for C2 at a concrete two-cycle run. -/
theorem exit_flag_read_once_per_cycle_witness :
    (cycleEvents true (fun _ => 0) 0 1 false).countP Event.isCheckExit = 1 :=
  ((exit_flag_read_once_per_cycle
        { bins := 1, disk := some (), sel := fun _ => 0 }
        [InMemAccountsIndex.new { bins := 1, disk := some (), sel := fun _ => 0 } 0]
        [false, true] 0).2
      (cycleEvents true (fun _ => 0) 0 1 false)
      (by rw [cyclesList_cons_false]; left)).1

/-- C3: every cycle of the worker loop begins by blocking on the wake
signal with a timeout of 10000 ms (bounded by 10 seconds) and re-checks
the shutdown flag immediately on waking; in particular a nonempty run's
very first event is the bounded wait. -/
theorem bounded_wait_every_cycle (st : BucketMapHolder)
    (im : List InMemAccountsIndex) (reads : List Bool) (c : Nat) :
    (∀ cyc ∈ cyclesList st im reads c,
      ∃ ms b, cyc.take 2 = [Event.waitTimeout ms, Event.checkExit b] ∧
        ms ≤ 10000) ∧
    (reads ≠ [] →
      (backgroundTrace st im reads c).get? 0 = some (Event.waitTimeout 10000)) := by
  constructor
  · intro cyc hcyc
    obtain ⟨c', b, rfl⟩ := cyclesList_mem st im reads c cyc hcyc
    exact ⟨10000, b, by cases b <;> rfl, le_refl _⟩
  · intro hne
    cases reads with
    | nil => exact absurd rfl hne
    | cons b rest => cases b <;> rfl

/-- Witness for C3 on a concrete one-cycle run. -/
theorem bounded_wait_every_cycle_witness :
    (backgroundTrace { bins := 0, disk := none, sel := fun _ => 0 } [] [true] 0).get? 0 =
      some (Event.waitTimeout 10000) :=
  (bounded_wait_every_cycle { bins := 0, disk := none, sel := fun _ => 0 } [] [true] 0).2
    (by simp)

/-- C4: if persistent storage is not configured, no shard flush and no
bucket selection ever happens, while statistics are still reported once
per bin in each of the scan passes; if persistent storage is configured,
each pass performs one bucket selection and one flush per bin, and every
flushed index is one returned by the selection policy (with its
`nextBucket` selection present in the trace). -/
theorem flush_gated_on_disk (st : BucketMapHolder)
    (im : List InMemAccountsIndex) (reads : List Bool) (c : Nat) :
    (st.disk = none →
      (backgroundTrace st im reads c).countP Event.isFlushShard = 0 ∧
      (backgroundTrace st im reads c).countP Event.isNextBucket = 0) ∧
    (backgroundTrace st im reads c).countP Event.isReportStats =
      im.length * scanPassesDone reads ∧
    (st.disk.isSome = true →
      ((backgroundTrace st im reads c).countP Event.isFlushShard =
        im.length * scanPassesDone reads ∧
      ∀ i, Event.flushShard i ∈ backgroundTrace st im reads c →
        (∃ m, i = st.sel m) ∧
          Event.nextBucket i ∈ backgroundTrace st im reads c)) := by
  refine ⟨?_, ?_, ?_⟩
  · intro hd
    have hf : st.disk.isSome = false := by rw [hd]; rfl
    constructor
    · rw [backgroundTrace_countP st im Event.isFlushShard 0
        (fun c' => by rw [cycleEvents_countP_flush, hf]; rfl)
        (fun c' => by rw [cycleEvents_countP_flush]; rfl) reads c]
      exact Nat.zero_mul _
    · rw [backgroundTrace_countP st im Event.isNextBucket 0
        (fun c' => by rw [cycleEvents_countP_next, hf]; rfl)
        (fun c' => by rw [cycleEvents_countP_next]; rfl) reads c]
      exact Nat.zero_mul _
  · exact backgroundTrace_countP st im Event.isReportStats im.length
      (fun c' => by rw [cycleEvents_countP_report]; rfl)
      (fun c' => by rw [cycleEvents_countP_report]; rfl) reads c
  · intro hd
    constructor
    · exact backgroundTrace_countP st im Event.isFlushShard im.length
        (fun c' => by rw [cycleEvents_countP_flush, hd]; rfl)
        (fun c' => by rw [cycleEvents_countP_flush]; rfl) reads c
    · exact fun i => backgroundTrace_flush_mem st im reads c i

/-- Witness for C4: with no disk configured, two scan passes over two
bins flush nothing but report four statistics. -/
theorem flush_gated_on_disk_witness :
    (backgroundTrace { bins := 2, disk := none, sel := fun _ => 0 }
        [InMemAccountsIndex.new { bins := 2, disk := none, sel := fun _ => 0 } 0,
         InMemAccountsIndex.new { bins := 2, disk := none, sel := fun _ => 0 } 1]
        [false, false, true] 0).countP Event.isFlushShard = 0 :=
  ((flush_gated_on_disk { bins := 2, disk := none, sel := fun _ => 0 }
      [InMemAccountsIndex.new { bins := 2, disk := none, sel := fun _ => 0 } 0,
       InMemAccountsIndex.new { bins := 2, disk := none, sel := fun _ => 0 } 1]
      [false, false, true] 0).1 rfl).1

/-! ## Helper lemmas on the active-thread counter -/

lemma counterAfter_nil : counterAfter [] = 0 := rfl

lemma counterAfter_append (a b : List Event) :
    counterAfter (a ++ b) = counterAfter a + counterAfter b := by
  simp [counterAfter]

lemma counterAfter_zero_of (l : List Event) (h : ∀ e ∈ l, activeDelta e = 0) :
    counterAfter l = 0 := by
  unfold counterAfter
  apply List.sum_eq_zero
  intro x hx
  obtain ⟨e, he, rfl⟩ := List.mem_map.mp hx
  exact h e he

lemma counterAfter_take_zero (l : List Event) (n : Nat)
    (h : ∀ e ∈ l, activeDelta e = 0) : counterAfter (l.take n) = 0 :=
  counterAfter_zero_of _ (fun e he => h e (List.mem_of_mem_take he))

lemma activeDelta_scanIter (f : Bool) (s : Nat → Nat) (c : Nat) :
    ∀ e ∈ scanIter f s c, activeDelta e = 0 := by
  cases f with
  | false =>
    intro e he
    rw [scanIter_false] at he
    simp at he
    subst he
    rfl
  | true =>
    intro e he
    rw [scanIter_true] at he
    simp only [List.mem_cons, List.not_mem_nil, or_false] at he
    rcases he with rfl | rfl | rfl <;> rfl

lemma activeDelta_scanPass (f : Bool) (s : Nat → Nat) :
    ∀ n c, ∀ e ∈ scanPass f s c n, activeDelta e = 0 := by
  intro n
  induction n with
  | zero => intro c e he; simp [scanPass] at he
  | succ n ih =>
    intro c e he
    rw [scanPass, List.mem_append] at he
    rcases he with he | he
    · exact activeDelta_scanIter f s c e he
    · exact ih (c + 1) e he

lemma activeDelta_cycle_true (f : Bool) (s : Nat → Nat) (c bins : Nat) :
    ∀ e ∈ cycleEvents f s c bins true, activeDelta e = 0 := by
  intro e he
  rw [cycleEvents_true] at he
  simp only [List.mem_cons, List.not_mem_nil, or_false] at he
  rcases he with rfl | rfl | rfl <;> rfl

lemma counterAfter_scanPass (f : Bool) (s : Nat → Nat) (n c : Nat) :
    counterAfter (scanPass f s c n) = 0 :=
  counterAfter_zero_of _ (activeDelta_scanPass f s n c)

lemma counterAfter_cycle (f : Bool) (s : Nat → Nat) (c bins : Nat) (b : Bool) :
    counterAfter (cycleEvents f s c bins b) = 0 := by
  cases b with
  | true => rfl
  | false =>
    rw [cycleEvents_false, counterAfter_append, counterAfter_append,
      counterAfter_scanPass]
    rfl

lemma counterAfter_take_singleton_dec (m : Nat) :
    counterAfter ([Event.decActive].take m) = 0 ∨
      counterAfter ([Event.decActive].take m) = -1 := by
  match m with
  | 0 => exact Or.inl rfl
  | m + 1 => exact Or.inr (by simp [counterAfter, activeDelta])

lemma counterAfter_cycle_take (f : Bool) (s : Nat → Nat) (c bins : Nat) (b : Bool)
    (n : Nat) :
    counterAfter ((cycleEvents f s c bins b).take n) = 0 ∨
      counterAfter ((cycleEvents f s c bins b).take n) = 1 := by
  cases b with
  | true => exact Or.inl (counterAfter_take_zero _ _ (activeDelta_cycle_true f s c bins))
  | false =>
    rw [cycleEvents_false, List.append_assoc, List.take_append_eq_append_take,
      List.take_append_eq_append_take, counterAfter_append, counterAfter_append,
      counterAfter_take_zero (scanPass f s c bins) _
        (fun e he => activeDelta_scanPass f s bins c e he)]
    have hlen : ([Event.waitTimeout 10000, Event.checkExit false,
        Event.incActive] : List Event).length = 3 := rfl
    rw [hlen]
    rcases le_or_lt n 2 with h2 | h2
    · have hm : n - 3 - (scanPass f s c bins).length = 0 := by omega
      have hfront : counterAfter ((
          [Event.waitTimeout 10000, Event.checkExit false, Event.incActive]).take n) = 0 := by
        interval_cases n <;> rfl
      rw [hm, hfront]
      simp [counterAfter_nil]
    · have hfront : ([Event.waitTimeout 10000, Event.checkExit false,
          Event.incActive]).take n =
          [Event.waitTimeout 10000, Event.checkExit false, Event.incActive] :=
        List.take_of_length_le (by rw [hlen]; omega)
      rw [hfront]
      have hfrontval : counterAfter
          [Event.waitTimeout 10000, Event.checkExit false, Event.incActive] = 1 := rfl
      rw [hfrontval]
      rcases counterAfter_take_singleton_dec (n - 3 - (scanPass f s c bins).length)
        with hdec | hdec <;> rw [hdec]
      · exact Or.inr (by ring)
      · exact Or.inl (by ring)

lemma counterAfter_trace_take (st : BucketMapHolder)
    (im : List InMemAccountsIndex) (reads : List Bool) :
    ∀ c n, counterAfter ((backgroundTrace st im reads c).take n) = 0 ∨
      counterAfter ((backgroundTrace st im reads c).take n) = 1 := by
  induction reads with
  | nil => intro c n; exact Or.inl (by simp [backgroundTrace, counterAfter])
  | cons b rest ih =>
    intro c n
    cases b with
    | true =>
      rw [backgroundTrace_cons_true]
      exact counterAfter_cycle_take _ _ _ _ _ _
    | false =>
      rw [backgroundTrace_cons_false, List.take_append_eq_append_take,
        counterAfter_append]
      rcases le_or_lt n
          (cycleEvents st.disk.isSome st.sel c im.length false).length with hle | hlt
      · have h0 : n - (cycleEvents st.disk.isSome st.sel c im.length false).length = 0 := by
          omega
        rw [h0]
        simpa [counterAfter_nil] using
          counterAfter_cycle_take st.disk.isSome st.sel c im.length false n
      · rw [List.take_of_length_le (Nat.le_of_lt hlt), counterAfter_cycle]
        simpa using ih (c + im.length)
          (n - (cycleEvents st.disk.isSome st.sel c im.length false).length)

lemma counterAfter_eq_counts (l : List Event) :
    counterAfter l =
      (l.countP (fun e => e == Event.incActive) : Int) -
        (l.countP (fun e => e == Event.decActive) : Int) := by
  induction l with
  | nil => rfl
  | cons e l ih =>
    have hstep : counterAfter (e :: l) = activeDelta e + counterAfter l := by
      simp [counterAfter]
    rw [hstep, ih]
    cases e <;> simp [activeDelta, List.countP_cons] <;> omega

/-- C5: for any collection of workers, each at an arbitrary point
(prefix) of an arbitrary run of the background loop, the sum of their
contributions to the shared active-thread counter is in `[0, N]` (never
negative); it is exactly 0 when no worker is mid-scan; and a worker's
exit cycle (flag read `true`, then `break`) performs no counter update
at all. -/
theorem active_thread_counter_bounded (ws : List (List Event))
    (h : ∀ w ∈ ws, ∃ st im reads c n,
      w = (backgroundTrace st im reads c).take n) :
    0 ≤ (ws.map counterAfter).sum ∧
    (ws.map counterAfter).sum ≤ (ws.length : Int) ∧
    ((∀ w ∈ ws, ¬ midScan w) → (ws.map counterAfter).sum = 0) ∧
    ∀ f s c bins, ∀ e ∈ cycleEvents f s c bins true, activeDelta e = 0 := by
  have hone : ∀ w ∈ ws, counterAfter w = 0 ∨ counterAfter w = 1 := by
    intro w hw
    obtain ⟨st, im, reads, c, n, rfl⟩ := h w hw
    exact counterAfter_trace_take st im reads c n
  have hbounds : 0 ≤ (ws.map counterAfter).sum ∧
      (ws.map counterAfter).sum ≤ (ws.length : Int) := by
    clear h
    induction ws with
    | nil => simp
    | cons w ws ih =>
      have hw := hone w (by simp)
      have hws := ih (fun w hw => hone w (by simp [hw]))
      simp only [List.map_cons, List.sum_cons, List.length_cons]
      push_cast
      omega
  refine ⟨hbounds.1, hbounds.2, ?_, ?_⟩
  · intro hnone
    apply List.sum_eq_zero
    intro x hx
    obtain ⟨w, hw, rfl⟩ := List.mem_map.mp hx
    have := hnone w hw
    rw [midScan] at this
    push_neg at this
    rw [counterAfter_eq_counts, this]
    ring
  · exact fun f s c bins => activeDelta_cycle_true f s c bins

/-- Witness for C5: a single worker stopped three events into a run. -/
theorem active_thread_counter_bounded_witness :
    0 ≤ ([(backgroundTrace { bins := 0, disk := none, sel := fun _ => 0 } []
        [false, true] 0).take 3].map counterAfter).sum :=
  (active_thread_counter_bounded _
    (by
      intro w hw
      simp only [List.mem_singleton] at hw
      subst hw
      exact ⟨{ bins := 0, disk := none, sel := fun _ => 0 }, [], [false, true], 0, 3,
        rfl⟩)).1

/-! ## Helper lemmas on the checked trace and loop termination -/

lemma backgroundTrace_ne_nil (st : BucketMapHolder)
    (im : List InMemAccountsIndex) (b : Bool) (rest : List Bool) (c : Nat) :
    backgroundTrace st im (b :: rest) c ≠ [] := by
  cases b with
  | true => rw [backgroundTrace_cons_true, cycleEvents_true]; simp
  | false => rw [backgroundTrace_cons_false, cycleEvents_false]; simp

lemma backgroundTrace_getLast_breakLoop (st : BucketMapHolder)
    (im : List InMemAccountsIndex) (reads : List Bool) :
    ∀ c, true ∈ reads →
      (backgroundTrace st im reads c).getLast? = some Event.breakLoop := by
  induction reads with
  | nil => intro c h; simp at h
  | cons b rest ih =>
    intro c h
    cases b with
    | true => rw [backgroundTrace_cons_true, cycleEvents_true]; rfl
    | false =>
      have hrest : true ∈ rest := by simpa using h
      obtain ⟨b', rest', rfl⟩ : ∃ b' rest', rest = b' :: rest' := by
        cases rest with
        | nil => simp at hrest
        | cons b' rest' => exact ⟨b', rest', rfl⟩
      rw [backgroundTrace_cons_false,
        List.getLast?_append_of_ne_nil _ (backgroundTrace_ne_nil st im b' rest' _)]
      exact ih _ hrest

lemma scanPassChecked_ok (st : BucketMapHolder) (im : List InMemAccountsIndex)
    (hsel : ∀ k, st.sel k < im.length) :
    ∀ n c, scanPassChecked st im c n =
      Except.ok (scanPass st.disk.isSome st.sel c n) := by
  intro n
  induction n with
  | zero => intro c; rfl
  | succ n ih =>
    intro c
    cases hf : st.disk.isSome with
    | false =>
      have hiter : scanIterChecked st im c = Except.ok [Event.reportStats] := by
        simp [scanIterChecked, hf]
      rw [scanPassChecked, hiter, ih c.succ]
      simp [scanPass, scanIter, hf]
    | true =>
      have hiter : scanIterChecked st im c =
          Except.ok [Event.nextBucket (st.sel c), Event.flushShard (st.sel c),
            Event.reportStats] := by
        simp [scanIterChecked, hf, List.getElem?_eq_getElem (hsel c)]
      rw [scanPassChecked, hiter, ih c.succ]
      simp [scanPass, scanIter, hf]

lemma backgroundTraceChecked_ok (st : BucketMapHolder)
    (im : List InMemAccountsIndex) (hsel : ∀ k, st.sel k < im.length)
    (reads : List Bool) :
    ∀ c, backgroundTraceChecked st im reads c =
      Except.ok (backgroundTrace st im reads c) := by
  induction reads with
  | nil => intro c; rfl
  | cons b rest ih =>
    intro c
    cases b with
    | true =>
      rw [backgroundTrace_cons_true, cycleEvents_true]
      rfl
    | false =>
      have hstep : backgroundTraceChecked st im (false :: rest) c =
          match scanPassChecked st im c im.length with
          | Except.error m => Except.error m
          | Except.ok pass =>
            match backgroundTraceChecked st im rest (c + im.length) with
            | Except.error m => Except.error m
            | Except.ok tail =>
              Except.ok ([Event.waitTimeout 10000, Event.checkExit false,
                Event.incActive] ++ pass ++ [Event.decActive] ++ tail) := rfl
      rw [hstep, scanPassChecked_ok st im hsel im.length c, ih (c + im.length),
        backgroundTrace_cons_false, cycleEvents_false]

lemma backgroundTraceChecked_ok_of_no_bins (st : BucketMapHolder)
    (reads : List Bool) :
    ∀ c, backgroundTraceChecked st [] reads c =
      Except.ok (backgroundTrace st [] reads c) := by
  induction reads with
  | nil => intro c; rfl
  | cons b rest ih =>
    intro c
    cases b with
    | true =>
      rw [backgroundTrace_cons_true, cycleEvents_true]
      rfl
    | false =>
      have hstep : backgroundTraceChecked st [] (false :: rest) c =
          match backgroundTraceChecked st [] rest (c + 0) with
          | Except.error m => Except.error m
          | Except.ok tail =>
            Except.ok ([Event.waitTimeout 10000, Event.checkExit false,
              Event.incActive] ++ [] ++ [Event.decActive] ++ tail) := rfl
      rw [hstep, ih (c + 0), backgroundTrace_cons_false, cycleEvents_false]
      simp [scanPass]

/-- C9: with 0 bins, every cycle performs zero scan iterations — no
flush, no bucket selection, no statistics report — yet the worker still
performs the bounded wait and the flag check at the head of each cycle,
never panics (checked run agrees with the plain trace), and exits with
`break` once a `true` flag value is read. -/
theorem zero_bins_safe (st : BucketMapHolder) (reads : List Bool) (c : Nat) :
    (backgroundTrace st [] reads c).countP Event.isFlushShard = 0 ∧
    (backgroundTrace st [] reads c).countP Event.isReportStats = 0 ∧
    (backgroundTrace st [] reads c).countP Event.isNextBucket = 0 ∧
    backgroundTraceChecked st [] reads c =
      Except.ok (backgroundTrace st [] reads c) ∧
    (∀ b rest, reads = b :: rest →
      (backgroundTrace st [] reads c).take 2 =
        [Event.waitTimeout 10000, Event.checkExit b]) ∧
    (true ∈ reads →
      (backgroundTrace st [] reads c).getLast? = some Event.breakLoop) := by
  refine ⟨?_, ?_, ?_, backgroundTraceChecked_ok_of_no_bins st reads c, ?_, ?_⟩
  · rw [backgroundTrace_countP st [] Event.isFlushShard 0
      (fun c' => by rw [cycleEvents_countP_flush]; cases st.disk.isSome <;> rfl)
      (fun c' => by rw [cycleEvents_countP_flush]; rfl) reads c]
    exact Nat.zero_mul _
  · rw [backgroundTrace_countP st [] Event.isReportStats 0
      (fun c' => by rw [cycleEvents_countP_report]; rfl)
      (fun c' => by rw [cycleEvents_countP_report]; rfl) reads c]
    exact Nat.zero_mul _
  · rw [backgroundTrace_countP st [] Event.isNextBucket 0
      (fun c' => by rw [cycleEvents_countP_next]; cases st.disk.isSome <;> rfl)
      (fun c' => by rw [cycleEvents_countP_next]; rfl) reads c]
    exact Nat.zero_mul _
  · rintro b rest rfl
    cases b <;> rfl
  · exact backgroundTrace_getLast_breakLoop st [] reads c

/-- Witness for C9: a worker over 0 bins that reads `true` exits with
`break` as its last event. -/
theorem zero_bins_safe_witness :
    (backgroundTrace { bins := 0, disk := some (), sel := fun _ => 0 } []
        [false, true] 0).getLast? = some Event.breakLoop :=
  (zero_bins_safe { bins := 0, disk := some (), sel := fun _ => 0 }
      [false, true] 0).2.2.2.2.2 (by simp)

/-- C10: with persistent storage configured, the loop indexes the shard
array with whatever `next_bucket_to_flush` returns; under the
precondition that the policy always returns an index below the bin
count, the checked run never reaches the out-of-bounds branch (it agrees
with the plain trace); a policy answer at or beyond the bin count would
instead make the scan iteration panic with an index-out-of-bounds
error. -/
theorem flush_index_in_bounds (st : BucketMapHolder)
    (im : List InMemAccountsIndex) (reads : List Bool) (c : Nat)
    (_hd : st.disk.isSome = true) (hsel : ∀ k, st.sel k < im.length) :
    backgroundTraceChecked st im reads c =
      Except.ok (backgroundTrace st im reads c) ∧
    ∀ (st' : BucketMapHolder) (im' : List InMemAccountsIndex) (c' : Nat),
      st'.disk.isSome = true → im'.length ≤ st'.sel c' →
        scanIterChecked st' im' c' = Except.error "index out of bounds" := by
  refine ⟨backgroundTraceChecked_ok st im hsel reads c, ?_⟩
  intro st' im' c' hd' hout
  simp [scanIterChecked, hd', List.getElem?_eq_none hout]

/-- Witness for C10: two bins, policy constantly answering 1 — the
checked run never panics. -/
theorem flush_index_in_bounds_witness :
    backgroundTraceChecked { bins := 2, disk := some (), sel := fun _ => 1 }
        [InMemAccountsIndex.new { bins := 2, disk := some (), sel := fun _ => 1 } 0,
         InMemAccountsIndex.new { bins := 2, disk := some (), sel := fun _ => 1 } 1]
        [false, true] 0 =
      Except.ok (backgroundTrace { bins := 2, disk := some (), sel := fun _ => 1 }
        [InMemAccountsIndex.new { bins := 2, disk := some (), sel := fun _ => 1 } 0,
         InMemAccountsIndex.new { bins := 2, disk := some (), sel := fun _ => 1 } 1]
        [false, true] 0) :=
  (flush_index_in_bounds { bins := 2, disk := some (), sel := fun _ => 1 }
      [InMemAccountsIndex.new { bins := 2, disk := some (), sel := fun _ => 1 } 0,
       InMemAccountsIndex.new { bins := 2, disk := some (), sel := fun _ => 1 } 1]
      [false, true] 0 rfl (fun _ => Nat.one_lt_two)).1
